import Mathlib

/-!
Shallow embedding of the gameplay core of `magic_rug` (src/main.rs): a
side-scrolling collection game built on bevy.  Positions are modelled with
`ℚ` standing in for `f32`; the `f32` Euclidean-distance test
`player_pos.distance(gem) < 30.0` is stated as the equivalent squared-distance
comparison.  The bevy ECS world is modelled as an explicit `World` record and
each system as a function on it; bevy's `NextState` resource is the `pending`
field, applied by the `StateTransition` schedule at the start of the next
frame.
-/

namespace MagicRug

/-- Translation vector, standing in for bevy's `Vec3` of `f32`. -/
structure Vec3 where
  x : ℚ
  y : ℚ
  z : ℚ
  deriving DecidableEq

/-- Constant `MAX_HEALTH` (src/main.rs line 17). -/
def MAX_HEALTH : Int := 3

/-- Component `Health` (src/main.rs lines 54-58): `current` and `max` are `i32`. -/
structure Health where
  current : Int
  max : Int
  deriving DecidableEq

/-- State enum `GameState` (src/main.rs lines 86-91); `Playing` is the default. -/
inductive GameState where
  | Playing
  | GameOver
  deriving DecidableEq

/-- Keyboard signals consumed by `move_player`: whether the up and down
arrow keys are pressed this tick. -/
structure Input where
  up : Bool
  down : Bool
  deriving DecidableEq

/-- Accumulator `vertical` of `move_player` (src/main.rs lines 98-105):
starts at 0, adds 1 when up is pressed, subtracts 1 when down is pressed. -/
def vertical (inp : Input) : ℚ :=
  (if inp.up then (1 : ℚ) else 0) + (if inp.down then (-1 : ℚ) else 0)

/-- Constant `horizontal_speed` of `move_player` (src/main.rs line 107). -/
def horizontal_speed : ℚ := 300

/-- Constant `vertical_speed` of `move_player` (src/main.rs line 108). -/
def vertical_speed : ℚ := 300

/-- System `move_player` (src/main.rs lines 93-117): adds the movement vector
`(horizontal_speed*dt, vertical*vertical_speed*dt, 0)` to the player translation. -/
def move_player (inp : Input) (dt : ℚ) (p : Vec3) : Vec3 :=
  { x := p.x + horizontal_speed * dt
    y := p.y + vertical inp * vertical_speed * dt
    z := p.z + 0 }

/-- System `follow_player` (src/main.rs lines 119-126): sets the camera
translation's x to the player's x plus 200, leaving y and z alone. -/
def follow_player (player cam : Vec3) : Vec3 :=
  { cam with x := player.x + 200 }

/-- One live gem entity: its entity id and its `Transform` translation. -/
structure Gem where
  id : Nat
  pos : Vec3
  deriving DecidableEq

/-- Squared distance of two translations after `truncate()` (the z axis dropped). -/
def dist2 (a b : Vec3) : ℚ := (a.x - b.x) ^ 2 + (a.y - b.y) ^ 2

/-- Collision test of `collect_gems` (src/main.rs line 139):
`player_pos.distance(transform.translation.truncate()) < 30.0`, stated as the
squared distance being less than 900. -/
def in_range (p g : Vec3) : Bool := decide (dist2 p g < 900)

/-- Result of one run of `collect_gems`: the surviving gems, the score, the
player health and the number of collection sounds spawned so far. -/
structure Pickup where
  gems : List Gem
  score : Nat
  health : Health
  sounds : Nat
  deriving DecidableEq

/-- System `collect_gems` (src/main.rs lines 128-153): for each gem of the
query whose truncated distance to the player is below 30, despawn the gem,
add 1 to the score, set `health.current` to `(health.current - 1).max(0)`,
and spawn one audio player for the collection sound. -/
def collect_gems (p : Vec3) : List Gem → Nat → Health → Nat → Pickup
  | [], score, h, snd => ⟨[], score, h, snd⟩
  | g :: rest, score, h, snd =>
    if in_range p g.pos then
      collect_gems p rest (score + 1) { h with current := max (h.current - 1) 0 } (snd + 1)
    else
      let r := collect_gems p rest score h snd
      ⟨g :: r.gems, r.score, r.health, r.sounds⟩

/-- The gameplay-relevant world state: the bevy resources and singleton
components the core systems read and write. -/
structure World where
  player : Vec3
  camera : Vec3
  health : Health
  score : Nat
  gems : List Gem
  state : GameState
  pending : Option GameState
  sounds : Nat
  deriving DecidableEq

/-- One `FixedUpdate` run of the chained systems
`(move_player, follow_player, collect_gems)` gated by
`run_if(in_state(GameState::Playing))` (src/main.rs lines 35-41). -/
def fixed_tick (inp : Input) (dt : ℚ) (w : World) : World :=
  if w.state = GameState.Playing then
    let p := move_player inp dt w.player
    let cam := follow_player p w.camera
    let r := collect_gems p w.gems w.score w.health w.sounds
    { w with player := p, camera := cam, gems := r.gems, score := r.score,
             health := r.health, sounds := r.sounds }
  else w

/-- System `check_player_death` (src/main.rs lines 284-293): when
`health.current <= 0`, queue the transition to `GameState::GameOver` on the
`NextState` resource.  It runs in `Update` every frame, ungated (line 46). -/
def check_player_death (w : World) : World :=
  if w.health.current ≤ 0 then { w with pending := some GameState.GameOver } else w

/-- Bevy's `StateTransition` schedule: a queued `NextState`, when present, is
applied at the start of the next frame, before that frame's systems run. -/
def apply_transition (w : World) : World :=
  match w.pending with
  | some s => { w with state := s, pending := none }
  | none => w

/-- Fixed ticks due in one frame: each entry an input sample and its `dt`. -/
abbrev Ticks := List (Input × ℚ)

/-- Fold of the due `FixedUpdate` ticks of one frame. -/
def run_ticks (ts : Ticks) (w : World) : World :=
  ts.foldl (fun w t => fixed_tick t.1 t.2 w) w

/-- One frame of bevy's main loop, gameplay parts only: `StateTransition`,
then the `FixedUpdate` ticks due this frame, then the ungated `Update` system
`check_player_death`. -/
def frame (ts : Ticks) (w : World) : World :=
  check_player_death (run_ticks ts (apply_transition w))

/-- A whole run: the frames in order, each with its due fixed ticks. -/
def run (fs : List Ticks) (w : World) : World :=
  fs.foldl (fun w ts => frame ts w) w

/-- Gems spawned by `setup` (src/main.rs lines 175-193): for `i` in `0..100`,
x is `i*300 + 600` and y is `random*400 - 200`, where `offsets i` stands for
the i-th draw of `rand::random::<f32>()` (a value in the unit interval). -/
def setup_gems (offsets : Nat → ℚ) : List Gem :=
  (List.range 100).map (fun i => ⟨i, ⟨(i : ℚ) * 300 + 600, offsets i * 400 - 200, 0⟩⟩)

/-- World built by `setup` and the app initialisation (src/main.rs lines
19-49 and 156-282): camera and player spawn with default transforms at the
origin, health is `MAX_HEALTH/MAX_HEALTH`, the score resource starts at 0
(line 28), the state is inserted as Playing (line 32). -/
def setup (offsets : Nat → ℚ) : World :=
  { player := ⟨0, 0, 0⟩
    camera := ⟨0, 0, 0⟩
    health := { current := MAX_HEALTH, max := MAX_HEALTH }
    score := 0
    gems := setup_gems offsets
    state := GameState.Playing
    pending := none
    sounds := 0 }

/-- Invariant satisfied by every world reachable from `setup`. -/
abbrev Inv (w : World) : Prop :=
  0 ≤ w.health.current ∧ w.health.current ≤ w.health.max ∧
  (w.pending = none ∨ w.pending = some GameState.GameOver) ∧
  (w.pending = some GameState.GameOver → w.health.current = 0) ∧
  (w.state = GameState.GameOver → w.health.current = 0) ∧
  (w.health.current = 0 → w.pending = some GameState.GameOver ∨ w.state = GameState.GameOver)

theorem collect_gems_gems (p : Vec3) (l : List Gem) (s : Nat) (h : Health) (n : Nat) :
    (collect_gems p l s h n).gems = l.filter (fun g => ! in_range p g.pos) := by
  induction l generalizing s h n with
  | nil => rfl
  | cons g rest ih =>
    by_cases hg : in_range p g.pos = true
    · simp [collect_gems, hg, ih]
    · simp only [Bool.not_eq_true] at hg
      simp [collect_gems, hg, ih]

theorem collect_gems_score (p : Vec3) (l : List Gem) (s : Nat) (h : Health) (n : Nat) :
    (collect_gems p l s h n).score = s + l.countP (fun g => in_range p g.pos) := by
  induction l generalizing s h n with
  | nil => simp [collect_gems]
  | cons g rest ih =>
    by_cases hg : in_range p g.pos = true
    · simp [collect_gems, hg, ih, List.countP_cons]
      omega
    · simp only [Bool.not_eq_true] at hg
      simp [collect_gems, hg, ih, List.countP_cons]

theorem collect_gems_sounds (p : Vec3) (l : List Gem) (s : Nat) (h : Health) (n : Nat) :
    (collect_gems p l s h n).sounds = n + l.countP (fun g => in_range p g.pos) := by
  induction l generalizing s h n with
  | nil => simp [collect_gems]
  | cons g rest ih =>
    by_cases hg : in_range p g.pos = true
    · simp [collect_gems, hg, ih, List.countP_cons]
      omega
    · simp only [Bool.not_eq_true] at hg
      simp [collect_gems, hg, ih, List.countP_cons]

theorem collect_gems_health_max (p : Vec3) (l : List Gem) (s : Nat) (h : Health) (n : Nat) :
    (collect_gems p l s h n).health.max = h.max := by
  induction l generalizing s h n with
  | nil => rfl
  | cons g rest ih =>
    by_cases hg : in_range p g.pos = true
    · simp [collect_gems, hg, ih]
    · simp only [Bool.not_eq_true] at hg
      simp [collect_gems, hg, ih]

theorem collect_gems_health_current (p : Vec3) (l : List Gem) (s : Nat) (h : Health)
    (n : Nat) (hc : 0 ≤ h.current) :
    (collect_gems p l s h n).health.current
      = max (h.current - (l.countP (fun g => in_range p g.pos) : Int)) 0 := by
  induction l generalizing s h n with
  | nil => simp [collect_gems]; omega
  | cons g rest ih =>
    by_cases hg : in_range p g.pos = true
    · have h0 : (0 : Int) ≤ max (h.current - 1) 0 := le_max_right _ _
      simp only [collect_gems, hg, if_pos]
      rw [ih _ _ _ h0]
      simp [List.countP_cons, hg]
      omega
    · simp only [Bool.not_eq_true] at hg
      simp [collect_gems, hg, ih _ _ _ hc, List.countP_cons]

theorem countP_not_add_countP (p : Gem → Bool) (l : List Gem) :
    l.countP (fun g => ! p g) + l.countP p = l.length := by
  induction l with
  | nil => simp
  | cons g rest ih =>
    rcases hg : p g with _ | _ <;> simp [List.countP_cons, hg] <;> omega

theorem collect_gems_no_hit (p : Vec3) (l : List Gem) (s : Nat) (h : Health) (n : Nat)
    (hall : ∀ g ∈ l, in_range p g.pos = false) :
    collect_gems p l s h n = ⟨l, s, h, n⟩ := by
  induction l generalizing s h n with
  | nil => rfl
  | cons g rest ih =>
    have hg := hall g (List.mem_cons_self g rest)
    simp [collect_gems, hg, ih _ _ _ (fun g2 hg2 => hall g2 (List.mem_cons_of_mem g hg2))]

theorem filter_not_in_range (p : Vec3) (l : List Gem) (g : Gem)
    (hg : g ∈ l.filter (fun g2 => ! in_range p g2.pos)) : in_range p g.pos = false := by
  have := List.of_mem_filter hg
  simpa using this

theorem fixed_tick_state (inp : Input) (dt : ℚ) (w : World) :
    (fixed_tick inp dt w).state = w.state := by
  unfold fixed_tick; split <;> rfl

theorem fixed_tick_pending (inp : Input) (dt : ℚ) (w : World) :
    (fixed_tick inp dt w).pending = w.pending := by
  unfold fixed_tick; split <;> rfl

theorem fixed_tick_gameover (inp : Input) (dt : ℚ) (w : World)
    (hgo : w.state = GameState.GameOver) : fixed_tick inp dt w = w := by
  unfold fixed_tick
  rw [if_neg]
  rw [hgo]
  intro hc
  exact GameState.noConfusion hc

theorem fixed_tick_health_max (inp : Input) (dt : ℚ) (w : World) :
    (fixed_tick inp dt w).health.max = w.health.max := by
  unfold fixed_tick
  split
  · exact collect_gems_health_max ..
  · rfl

theorem fixed_tick_health_current (inp : Input) (dt : ℚ) (w : World)
    (hs : w.state = GameState.Playing) (hc : 0 ≤ w.health.current) :
    (fixed_tick inp dt w).health.current
      = max (w.health.current
          - (w.gems.countP (fun g => in_range (move_player inp dt w.player) g.pos) : Int)) 0 := by
  unfold fixed_tick
  rw [if_pos hs]
  exact collect_gems_health_current _ _ _ _ _ hc

theorem fixed_tick_health_mono (inp : Input) (dt : ℚ) (w : World) (hc : 0 ≤ w.health.current) :
    (fixed_tick inp dt w).health.current ≤ w.health.current
    ∧ 0 ≤ (fixed_tick inp dt w).health.current := by
  by_cases hs : w.state = GameState.Playing
  · rw [fixed_tick_health_current inp dt w hs hc]
    omega
  · have hgo : w.state = GameState.GameOver := by
      cases h : w.state
      · exact absurd h hs
      · rfl
    rw [fixed_tick_gameover inp dt w hgo]
    omega

theorem fixed_tick_health_zero (inp : Input) (dt : ℚ) (w : World)
    (h0 : w.health.current = 0) : (fixed_tick inp dt w).health.current = 0 := by
  by_cases hs : w.state = GameState.Playing
  · rw [fixed_tick_health_current inp dt w hs (by omega), h0]
    omega
  · have hgo : w.state = GameState.GameOver := by
      cases h : w.state
      · exact absurd h hs
      · rfl
    rw [fixed_tick_gameover inp dt w hgo, h0]

theorem fixed_tick_score (inp : Input) (dt : ℚ) (w : World) (hs : w.state = GameState.Playing) :
    (fixed_tick inp dt w).score
      = w.score + w.gems.countP (fun g => in_range (move_player inp dt w.player) g.pos) := by
  unfold fixed_tick
  rw [if_pos hs]
  exact collect_gems_score ..

theorem fixed_tick_score_ge (inp : Input) (dt : ℚ) (w : World) :
    w.score ≤ (fixed_tick inp dt w).score := by
  by_cases hs : w.state = GameState.Playing
  · rw [fixed_tick_score inp dt w hs]; omega
  · have hgo : w.state = GameState.GameOver := by
      cases h : w.state
      · exact absurd h hs
      · rfl
    rw [fixed_tick_gameover inp dt w hgo]

theorem fixed_tick_gems (inp : Input) (dt : ℚ) (w : World) (hs : w.state = GameState.Playing) :
    (fixed_tick inp dt w).gems
      = w.gems.filter (fun g => ! in_range (move_player inp dt w.player) g.pos) := by
  unfold fixed_tick
  rw [if_pos hs]
  exact collect_gems_gems ..

theorem fixed_tick_conserve (inp : Input) (dt : ℚ) (w : World) :
    (fixed_tick inp dt w).score + (fixed_tick inp dt w).gems.length
      = w.score + w.gems.length := by
  by_cases hs : w.state = GameState.Playing
  · rw [fixed_tick_score inp dt w hs, fixed_tick_gems inp dt w hs,
      ← List.countP_eq_length_filter]
    have := countP_not_add_countP
      (fun g => in_range (move_player inp dt w.player) g.pos) w.gems
    omega
  · have hgo : w.state = GameState.GameOver := by
      cases h : w.state
      · exact absurd h hs
      · rfl
    rw [fixed_tick_gameover inp dt w hgo]

theorem run_ticks_cons (t : Input × ℚ) (ts : Ticks) (w : World) :
    run_ticks (t :: ts) w = run_ticks ts (fixed_tick t.1 t.2 w) := rfl

theorem run_ticks_state (ts : Ticks) (w : World) : (run_ticks ts w).state = w.state := by
  induction ts generalizing w with
  | nil => rfl
  | cons t ts ih => rw [run_ticks_cons, ih, fixed_tick_state]

theorem run_ticks_pending (ts : Ticks) (w : World) : (run_ticks ts w).pending = w.pending := by
  induction ts generalizing w with
  | nil => rfl
  | cons t ts ih => rw [run_ticks_cons, ih, fixed_tick_pending]

theorem run_ticks_gameover (ts : Ticks) (w : World) (hgo : w.state = GameState.GameOver) :
    run_ticks ts w = w := by
  induction ts with
  | nil => rfl
  | cons t ts ih => rw [run_ticks_cons, fixed_tick_gameover t.1 t.2 w hgo, ih]

theorem run_ticks_health_max (ts : Ticks) (w : World) :
    (run_ticks ts w).health.max = w.health.max := by
  induction ts generalizing w with
  | nil => rfl
  | cons t ts ih => rw [run_ticks_cons, ih, fixed_tick_health_max]

theorem run_ticks_health_mono (ts : Ticks) (w : World) (hc : 0 ≤ w.health.current) :
    (run_ticks ts w).health.current ≤ w.health.current
    ∧ 0 ≤ (run_ticks ts w).health.current := by
  induction ts generalizing w with
  | nil => exact ⟨le_refl _, hc⟩
  | cons t ts ih =>
    have hstep := fixed_tick_health_mono t.1 t.2 w hc
    have := ih (fixed_tick t.1 t.2 w) hstep.2
    rw [run_ticks_cons]
    omega

theorem run_ticks_health_zero (ts : Ticks) (w : World) (h0 : w.health.current = 0) :
    (run_ticks ts w).health.current = 0 := by
  induction ts generalizing w with
  | nil => exact h0
  | cons t ts ih => rw [run_ticks_cons]; exact ih _ (fixed_tick_health_zero t.1 t.2 w h0)

theorem run_ticks_score_ge (ts : Ticks) (w : World) : w.score ≤ (run_ticks ts w).score := by
  induction ts generalizing w with
  | nil => exact le_refl _
  | cons t ts ih =>
    rw [run_ticks_cons]
    exact le_trans (fixed_tick_score_ge t.1 t.2 w) (ih _)

theorem run_ticks_conserve (ts : Ticks) (w : World) :
    (run_ticks ts w).score + (run_ticks ts w).gems.length = w.score + w.gems.length := by
  induction ts generalizing w with
  | nil => rfl
  | cons t ts ih =>
    rw [run_ticks_cons]
    rw [ih (fixed_tick t.1 t.2 w), fixed_tick_conserve]

theorem check_player_death_fields (w : World) :
    (check_player_death w).health = w.health ∧ (check_player_death w).score = w.score
    ∧ (check_player_death w).gems = w.gems ∧ (check_player_death w).state = w.state
    ∧ (check_player_death w).player = w.player ∧ (check_player_death w).camera = w.camera
    ∧ (check_player_death w).sounds = w.sounds := by
  unfold check_player_death; split <;> exact ⟨rfl, rfl, rfl, rfl, rfl, rfl, rfl⟩

theorem check_player_death_sets (w : World) (h0 : w.health.current ≤ 0) :
    (check_player_death w).pending = some GameState.GameOver := by
  unfold check_player_death
  rw [if_pos h0]

theorem check_player_death_pending (w : World) :
    (check_player_death w).pending = w.pending
    ∨ (check_player_death w).pending = some GameState.GameOver := by
  unfold check_player_death
  split
  · exact Or.inr rfl
  · exact Or.inl rfl

theorem apply_transition_fields (w : World) :
    (apply_transition w).health = w.health ∧ (apply_transition w).score = w.score
    ∧ (apply_transition w).gems = w.gems ∧ (apply_transition w).player = w.player
    ∧ (apply_transition w).camera = w.camera ∧ (apply_transition w).sounds = w.sounds := by
  unfold apply_transition
  cases w.pending <;> exact ⟨rfl, rfl, rfl, rfl, rfl, rfl⟩

theorem apply_transition_none (w : World) (h : w.pending = none) : apply_transition w = w := by
  unfold apply_transition
  rw [h]

theorem apply_transition_some (w : World) (s : GameState) (h : w.pending = some s) :
    (apply_transition w).state = s ∧ (apply_transition w).pending = none := by
  unfold apply_transition
  rw [h]
  exact ⟨rfl, rfl⟩

theorem check_player_death_keeps (w : World) (h : ¬ w.health.current ≤ 0) :
    check_player_death w = w := by
  unfold check_player_death
  rw [if_neg h]

theorem state_cases (s : GameState) : s = GameState.Playing ∨ s = GameState.GameOver := by
  cases s
  · exact Or.inl rfl
  · exact Or.inr rfl

theorem frame_def (ts : Ticks) (w : World) :
    frame ts w = check_player_death (run_ticks ts (apply_transition w)) := rfl

theorem apply_transition_pending_inv (w : World) (hInv : Inv w) :
    (apply_transition w).pending = none := by
  rcases hInv.2.2.1 with h | h
  · rw [apply_transition_none w h]; exact h
  · exact (apply_transition_some w _ h).2

theorem apply_transition_state_zero (w : World) (hInv : Inv w) :
    (apply_transition w).state = GameState.GameOver → (apply_transition w).health.current = 0 := by
  intro hgo
  rcases hInv.2.2.1 with h | h
  · rw [apply_transition_none w h] at hgo ⊢
    exact hInv.2.2.2.2.1 hgo
  · rw [(apply_transition_fields w).1]
    exact hInv.2.2.2.1 h

theorem frame_Inv (ts : Ticks) (w : World) (hInv : Inv w) : Inv (frame ts w) := by
  obtain ⟨hc0, hcm, hp, hpz, hsz, hzp⟩ := hInv
  have h1f := apply_transition_fields w
  have h1c : (apply_transition w).health.current = w.health.current := by rw [h1f.1]
  have h1m : (apply_transition w).health.max = w.health.max := by rw [h1f.1]
  have h1sz := apply_transition_state_zero w ⟨hc0, hcm, hp, hpz, hsz, hzp⟩
  have h2h := run_ticks_health_mono ts (apply_transition w) (by rw [h1c]; exact hc0)
  have h2max := run_ticks_health_max ts (apply_transition w)
  have h2s := run_ticks_state ts (apply_transition w)
  have h2p : (run_ticks ts (apply_transition w)).pending = none := by
    rw [run_ticks_pending]
    exact apply_transition_pending_inv w ⟨hc0, hcm, hp, hpz, hsz, hzp⟩
  have h2sz : (run_ticks ts (apply_transition w)).state = GameState.GameOver →
      (run_ticks ts (apply_transition w)).health.current = 0 := by
    intro hgo
    rw [h2s] at hgo
    rw [run_ticks_gameover ts (apply_transition w) hgo]
    exact h1sz hgo
  rw [frame_def]
  by_cases h20 : (run_ticks ts (apply_transition w)).health.current ≤ 0
  · have h3p := check_player_death_sets _ h20
    have h3f := check_player_death_fields (run_ticks ts (apply_transition w))
    have h3c : (check_player_death (run_ticks ts (apply_transition w))).health.current
        = (run_ticks ts (apply_transition w)).health.current := by rw [h3f.1]
    have h3m : (check_player_death (run_ticks ts (apply_transition w))).health.max
        = (run_ticks ts (apply_transition w)).health.max := by rw [h3f.1]
    refine ⟨?_, ?_, Or.inr h3p, ?_, ?_, ?_⟩
    · rw [h3c]; exact h2h.2
    · rw [h3c, h3m, h2max, h1m]
      have := h2h.1
      rw [h1c] at this
      omega
    · intro _; rw [h3c]; omega
    · intro _; rw [h3c]; omega
    · intro _; exact Or.inl h3p
  · have h3 := check_player_death_keeps _ h20
    rw [h3]
    refine ⟨h2h.2, ?_, Or.inl h2p, ?_, h2sz, ?_⟩
    · rw [h2max, h1m]
      have := h2h.1
      rw [h1c] at this
      omega
    · rw [h2p]; intro hc; exact Option.noConfusion hc
    · intro hz; omega

theorem frame_gameover (ts : Ticks) (w : World) (hInv : Inv w)
    (hgo : w.state = GameState.GameOver) :
    (frame ts w).state = GameState.GameOver ∧ (frame ts w).health = w.health
    ∧ (frame ts w).score = w.score ∧ (frame ts w).gems = w.gems
    ∧ (frame ts w).player = w.player ∧ (frame ts w).camera = w.camera
    ∧ (frame ts w).sounds = w.sounds := by
  have h1f := apply_transition_fields w
  have h1s : (apply_transition w).state = GameState.GameOver := by
    rcases hInv.2.2.1 with h | h
    · rw [apply_transition_none w h]; exact hgo
    · exact (apply_transition_some w _ h).1
  have h2 : run_ticks ts (apply_transition w) = apply_transition w :=
    run_ticks_gameover ts (apply_transition w) h1s
  have h3f := check_player_death_fields (run_ticks ts (apply_transition w))
  rw [frame_def]
  refine ⟨?_, ?_, ?_, ?_, ?_, ?_, ?_⟩
  · rw [h3f.2.2.2.1, h2, h1s]
  · rw [h3f.1, h2, h1f.1]
  · rw [h3f.2.1, h2, h1f.2.1]
  · rw [h3f.2.2.1, h2, h1f.2.2.1]
  · rw [h3f.2.2.2.2.1, h2, h1f.2.2.2.1]
  · rw [h3f.2.2.2.2.2.1, h2, h1f.2.2.2.2.1]
  · rw [h3f.2.2.2.2.2.2, h2, h1f.2.2.2.2.2]

theorem frame_health_max (ts : Ticks) (w : World) :
    (frame ts w).health.max = w.health.max := by
  rw [frame_def, (check_player_death_fields _).1, run_ticks_health_max,
    (apply_transition_fields w).1]

theorem frame_health_mono (ts : Ticks) (w : World) (hc : 0 ≤ w.health.current) :
    (frame ts w).health.current ≤ w.health.current
    ∧ 0 ≤ (frame ts w).health.current := by
  have h1c : (apply_transition w).health.current = w.health.current := by
    rw [(apply_transition_fields w).1]
  have h2h := run_ticks_health_mono ts (apply_transition w) (by rw [h1c]; exact hc)
  rw [h1c] at h2h
  rw [frame_def, (check_player_death_fields _).1]
  exact h2h

theorem frame_score_ge (ts : Ticks) (w : World) : w.score ≤ (frame ts w).score := by
  rw [frame_def, (check_player_death_fields _).2.1]
  have := run_ticks_score_ge ts (apply_transition w)
  rw [(apply_transition_fields w).2.1] at this
  exact this

theorem frame_conserve (ts : Ticks) (w : World) :
    (frame ts w).score + (frame ts w).gems.length = w.score + w.gems.length := by
  rw [frame_def, (check_player_death_fields _).2.1, (check_player_death_fields _).2.2.1]
  have := run_ticks_conserve ts (apply_transition w)
  rw [(apply_transition_fields w).2.1, (apply_transition_fields w).2.2.1] at this
  exact this

theorem frame_go_of_zero (ts : Ticks) (w : World) (hInv : Inv w)
    (h0 : w.health.current = 0) : (frame ts w).state = GameState.GameOver := by
  rcases hInv.2.2.2.2.2 h0 with hpd | hgo
  · have h1s := (apply_transition_some w _ hpd).1
    rw [frame_def, (check_player_death_fields _).2.2.2.1, run_ticks_state]
    exact h1s
  · exact (frame_gameover ts w hInv hgo).1

theorem frame_zero_pending (ts : Ticks) (w : World)
    (h0 : (frame ts w).health.current = 0) :
    (frame ts w).pending = some GameState.GameOver := by
  have hc : (frame ts w).health.current
      = (run_ticks ts (apply_transition w)).health.current := by
    rw [frame_def, (check_player_death_fields _).1]
  rw [frame_def]
  exact check_player_death_sets _ (by rw [← hc, h0])

theorem run_cons (ts : Ticks) (fs : List Ticks) (w : World) :
    run (ts :: fs) w = run fs (frame ts w) := rfl

theorem run_append (a b : List Ticks) (w : World) : run (a ++ b) w = run b (run a w) := by
  unfold run
  exact List.foldl_append ..

theorem run_Inv (fs : List Ticks) (w : World) (hInv : Inv w) : Inv (run fs w) := by
  induction fs generalizing w with
  | nil => exact hInv
  | cons ts fs ih => rw [run_cons]; exact ih _ (frame_Inv ts w hInv)

theorem run_health_max (fs : List Ticks) (w : World) :
    (run fs w).health.max = w.health.max := by
  induction fs generalizing w with
  | nil => rfl
  | cons ts fs ih => rw [run_cons, ih, frame_health_max]

theorem run_health_mono (fs : List Ticks) (w : World) (hc : 0 ≤ w.health.current) :
    (run fs w).health.current ≤ w.health.current ∧ 0 ≤ (run fs w).health.current := by
  induction fs generalizing w with
  | nil => exact ⟨le_refl _, hc⟩
  | cons ts fs ih =>
    have hstep := frame_health_mono ts w hc
    have := ih (frame ts w) hstep.2
    rw [run_cons]
    omega

theorem run_score_ge (fs : List Ticks) (w : World) : w.score ≤ (run fs w).score := by
  induction fs generalizing w with
  | nil => exact le_refl _
  | cons ts fs ih =>
    rw [run_cons]
    exact le_trans (frame_score_ge ts w) (ih _)

theorem run_conserve (fs : List Ticks) (w : World) :
    (run fs w).score + (run fs w).gems.length = w.score + w.gems.length := by
  induction fs generalizing w with
  | nil => rfl
  | cons ts fs ih =>
    rw [run_cons, ih (frame ts w), frame_conserve]

theorem run_gameover (fs : List Ticks) (w : World) (hInv : Inv w)
    (hgo : w.state = GameState.GameOver) :
    (run fs w).state = GameState.GameOver ∧ (run fs w).health = w.health
    ∧ (run fs w).score = w.score ∧ (run fs w).gems = w.gems
    ∧ (run fs w).player = w.player := by
  induction fs generalizing w with
  | nil => exact ⟨hgo, rfl, rfl, rfl, rfl⟩
  | cons ts fs ih =>
    have hstep := frame_gameover ts w hInv hgo
    have := ih (frame ts w) (frame_Inv ts w hInv) hstep.1
    rw [run_cons]
    refine ⟨this.1, ?_, ?_, ?_, ?_⟩
    · rw [this.2.1, hstep.2.1]
    · rw [this.2.2.1, hstep.2.2.1]
    · rw [this.2.2.2.1, hstep.2.2.2.1]
    · rw [this.2.2.2.2, hstep.2.2.2.2.1]

theorem setup_Inv (offsets : Nat → ℚ) : Inv (setup offsets) := by
  refine ⟨?_, ?_, Or.inl rfl, ?_, ?_, ?_⟩
  · norm_num [setup, MAX_HEALTH]
  · norm_num [setup, MAX_HEALTH]
  · intro hc
    exact Option.noConfusion hc
  · intro hc
    exact GameState.noConfusion hc
  · intro hc
    norm_num [setup, MAX_HEALTH] at hc

theorem fixed_tick_player (inp : Input) (dt : ℚ) (w : World)
    (hs : w.state = GameState.Playing) :
    (fixed_tick inp dt w).player = move_player inp dt w.player := by
  unfold fixed_tick
  rw [if_pos hs]

theorem fixed_tick_camera (inp : Input) (dt : ℚ) (w : World)
    (hs : w.state = GameState.Playing) :
    (fixed_tick inp dt w).camera = follow_player (move_player inp dt w.player) w.camera := by
  unfold fixed_tick
  rw [if_pos hs]

theorem fixed_tick_sounds (inp : Input) (dt : ℚ) (w : World)
    (hs : w.state = GameState.Playing) :
    (fixed_tick inp dt w).sounds
      = w.sounds + w.gems.countP (fun g => in_range (move_player inp dt w.player) g.pos) := by
  unfold fixed_tick
  rw [if_pos hs]
  exact collect_gems_sounds ..

/-- Input sample with neither arrow key pressed. -/
def no_input : Input := ⟨false, false⟩

/-- Concrete Playing world used by the witnesses: full health, one gem placed
where the player lands after one tick of one second. -/
def w_playing : World :=
  { player := ⟨0, 0, 0⟩
    camera := ⟨0, 0, 0⟩
    health := ⟨3, 3⟩
    score := 0
    gems := [⟨0, ⟨300, 0, 0⟩⟩]
    state := GameState.Playing
    pending := none
    sounds := 0 }

/-- Concrete game-over world used by the witnesses: health exhausted, a gem
well inside the collection radius, and a camera out of line with the player. -/
def w_over : World :=
  { player := ⟨0, 0, 0⟩
    camera := ⟨999, 0, 0⟩
    health := ⟨0, 3⟩
    score := 5
    gems := [⟨0, ⟨10, 0, 0⟩⟩]
    state := GameState.GameOver
    pending := none
    sounds := 5 }

/-- Gem sitting within the collection radius of the origin. -/
def gem_near : Gem := ⟨1, ⟨10, 0, 0⟩⟩

/-- C1: on a tick in which the Pickup System runs (state Playing), every live
gem within 2D Euclidean distance 30 of the (just moved) player is removed
from the live set; the score grows by the number of such gems (1 each), one
collection sound is emitted per such gem, and the player's health.current is
decremented once per such gem, clamped at 0, with health.max untouched. -/
theorem c1_pickup_collection (w : World) (inp : Input) (dt : ℚ) (g : Gem)
    (hs : w.state = GameState.Playing) (hc : 0 ≤ w.health.current)
    (hg : g ∈ w.gems) (hr : in_range (move_player inp dt w.player) g.pos = true) :
    g ∉ (fixed_tick inp dt w).gems
    ∧ (fixed_tick inp dt w).score
        = w.score + w.gems.countP (fun g2 => in_range (move_player inp dt w.player) g2.pos)
    ∧ (fixed_tick inp dt w).sounds
        = w.sounds + w.gems.countP (fun g2 => in_range (move_player inp dt w.player) g2.pos)
    ∧ (fixed_tick inp dt w).health.current
        = max (w.health.current
            - (w.gems.countP (fun g2 => in_range (move_player inp dt w.player) g2.pos) : Int)) 0
    ∧ (fixed_tick inp dt w).health.max = w.health.max
    ∧ 1 ≤ w.gems.countP (fun g2 => in_range (move_player inp dt w.player) g2.pos) := by
  refine ⟨?_, fixed_tick_score inp dt w hs, fixed_tick_sounds inp dt w hs,
    fixed_tick_health_current inp dt w hs hc, fixed_tick_health_max inp dt w, ?_⟩
  · rw [fixed_tick_gems inp dt w hs]
    intro hmem
    have := filter_not_in_range _ _ _ hmem
    rw [hr] at this
    exact Bool.noConfusion this
  · exact List.countP_pos_iff.mpr ⟨g, hg, hr⟩

/-- Witness for C1 at a concrete input: the one gem of `w_playing` lies where
the player lands after a 1-second tick, so it is no longer live afterwards. -/
theorem c1_pickup_collection_witness :
    (⟨0, ⟨300, 0, 0⟩⟩ : Gem) ∉ (fixed_tick no_input 1 w_playing).gems :=
  (c1_pickup_collection w_playing no_input 1 ⟨0, ⟨300, 0, 0⟩⟩ rfl (by decide)
    (by with_unfolding_all decide) (by with_unfolding_all decide)).1

/-- C2: in every state reachable from setup, 0 ≤ health.current ≤ health.max;
at setup, health.current and health.max both equal 3. -/
theorem c2_health_invariant (offsets : Nat → ℚ) (fs : List Ticks) :
    0 ≤ (run fs (setup offsets)).health.current
    ∧ (run fs (setup offsets)).health.current ≤ (run fs (setup offsets)).health.max
    ∧ (setup offsets).health.current = 3 ∧ (setup offsets).health.max = 3 := by
  have hInv := run_Inv fs (setup offsets) (setup_Inv offsets)
  exact ⟨hInv.1, hInv.2.1, rfl, rfl⟩

/-- C3: the score starts at 0, is monotonically non-decreasing and, in every
reachable state, equals the number of gems collected so far: the 100 spawned
gems minus the live ones, with each frame's score delta exactly the number of
gems that frame removed from the live set. -/
theorem c3_score_bookkeeping (offsets : Nat → ℚ) (fs more : List Ticks)
    (w : World) (ts : Ticks) :
    (setup offsets).score = 0
    ∧ (setup_gems offsets).length = 100
    ∧ (run fs (setup offsets)).score + (run fs (setup offsets)).gems.length = 100
    ∧ (run fs (setup offsets)).score ≤ (run (fs ++ more) (setup offsets)).score
    ∧ w.score ≤ (frame ts w).score
    ∧ (frame ts w).score + (frame ts w).gems.length = w.score + w.gems.length := by
  refine ⟨rfl, by simp [setup_gems], ?_, ?_, frame_score_ge ts w, frame_conserve ts w⟩
  · have := run_conserve fs (setup offsets)
    have hlen : (setup offsets).gems.length = 100 := by simp [setup, setup_gems]
    rw [hlen] at this
    simpa [setup] using this
  · rw [run_append]
    exact run_score_ge more (run fs (setup offsets))

/-- C4: the state machine only latches Playing to GameOver, never the
reverse; a reachable GameOver state has health.current = 0 (so health reached
0 before or at that frame, never after); and once health.current is 0 at the
end of a frame, the very next frame (and every frame after it) is in
GameOver — the level-triggered check fires no earlier than the frame in
which health reaches 0 and no later than the frame after it. -/
theorem c4_state_machine (offsets : Nat → ℚ) (fs more : List Ticks) (ts : Ticks) :
    ((run fs (setup offsets)).state = GameState.GameOver →
      (run (fs ++ more) (setup offsets)).state = GameState.GameOver
      ∧ (run fs (setup offsets)).health.current = 0)
    ∧ ((run fs (setup offsets)).health.current = 0 →
      (run (fs ++ ts :: more) (setup offsets)).state = GameState.GameOver) := by
  have hInv := run_Inv fs (setup offsets) (setup_Inv offsets)
  constructor
  · intro hgo
    refine ⟨?_, hInv.2.2.2.2.1 hgo⟩
    rw [run_append]
    exact (run_gameover more _ hInv hgo).1
  · intro h0
    rw [run_append, run_cons]
    have h1 := frame_go_of_zero ts _ hInv h0
    exact (run_gameover more _ (frame_Inv ts _ hInv) h1).1

/-- C5: in a reachable GameOver state the gated FixedUpdate chain does
nothing at all — even with a gem inside the collection radius a tick is the
identity — and over any further frames the score, health, gems and player
stay put while the state stays GameOver. -/
theorem c5_gameover_gating (w : World) (inp : Input) (dt : ℚ) (fs : List Ticks)
    (hInv : Inv w) (hgo : w.state = GameState.GameOver) :
    fixed_tick inp dt w = w
    ∧ (run fs w).score = w.score
    ∧ (run fs w).health = w.health
    ∧ (run fs w).gems = w.gems
    ∧ (run fs w).state = GameState.GameOver := by
  have h := run_gameover fs w hInv hgo
  exact ⟨fixed_tick_gameover inp dt w hgo, h.2.2.1, h.2.1, h.2.2.2.1, h.1⟩

/-- Witness for C5 at a concrete input: `w_over` is game over with a gem 10
units from the player, and one tick leaves the world unchanged. -/
theorem c5_gameover_gating_witness : fixed_tick no_input 1 w_over = w_over :=
  (c5_gameover_gating w_over no_input 1 [] (by with_unfolding_all decide) rfl).1

/-- C6: on a tick in which the Motion System runs (state Playing), the player
position changes by exactly (300*dt, v*300*dt, 0), where v is the sum of +1
if up is pressed and -1 if down is pressed: +1 for only up, -1 for only down,
0 for neither or both; no clamping of the vertical position happens. -/
theorem c6_motion (w : World) (inp : Input) (dt : ℚ) (hs : w.state = GameState.Playing) :
    (fixed_tick inp dt w).player
      = ⟨w.player.x + 300 * dt, w.player.y + vertical inp * 300 * dt, w.player.z⟩
    ∧ vertical ⟨true, false⟩ = 1 ∧ vertical ⟨false, true⟩ = -1
    ∧ vertical ⟨false, false⟩ = 0 ∧ vertical ⟨true, true⟩ = 0 := by
  refine ⟨?_, by norm_num [vertical], by norm_num [vertical], by norm_num [vertical],
    by norm_num [vertical]⟩
  rw [fixed_tick_player inp dt w hs]
  simp [move_player, horizontal_speed, vertical_speed]

/-- Witness for C6 at a concrete input: one 1-second tick from `w_playing`. -/
theorem c6_motion_witness :
    (fixed_tick no_input 1 w_playing).player
      = ⟨w_playing.player.x + 300 * 1, w_playing.player.y + vertical no_input * 300 * 1,
         w_playing.player.z⟩ :=
  (c6_motion w_playing no_input 1 rfl).1

/-- C7 counterexample: in a GameOver world whose camera is out of line with
the player, a tick leaves the camera where it was instead of setting its x to
player.x + 200 — so the Camera Follow System does not run after GameOver. -/
theorem c7_camera_counterexample :
    (fixed_tick no_input 1 w_over).camera.x ≠ (fixed_tick no_input 1 w_over).player.x + 200 := by
  with_unfolding_all decide

/-- C7 (amended): while the state is Playing, the Camera Follow System sets
the camera's x to the just-moved player's x + 200 and leaves the camera's y
and z untouched; it is gated together with the other FixedUpdate systems on
state Playing, so after GameOver it does not run and the whole tick is the
identity. -/
theorem c7_camera_follow (w : World) (inp : Input) (dt : ℚ) :
    (w.state = GameState.Playing →
      (fixed_tick inp dt w).camera.x = (fixed_tick inp dt w).player.x + 200
      ∧ (fixed_tick inp dt w).camera.y = w.camera.y
      ∧ (fixed_tick inp dt w).camera.z = w.camera.z)
    ∧ (w.state = GameState.GameOver → fixed_tick inp dt w = w) := by
  constructor
  · intro hs
    rw [fixed_tick_camera inp dt w hs, fixed_tick_player inp dt w hs]
    exact ⟨rfl, rfl, rfl⟩
  · intro hgo
    exact fixed_tick_gameover inp dt w hgo

/-- C8: gem collection is idempotent: a gem within the radius is removed by
the pass that collects it, and running the pickup pass again over the
survivors at the same player position changes nothing — neither the gems nor
the score, health or sound count. -/
theorem c8_collection_idempotent (p : Vec3) (l : List Gem) (s : Nat) (h : Health) (n : Nat)
    (g : Gem) (_hg : g ∈ l) (hr : in_range p g.pos = true) :
    g ∉ (collect_gems p l s h n).gems
    ∧ collect_gems p (collect_gems p l s h n).gems (collect_gems p l s h n).score
        (collect_gems p l s h n).health (collect_gems p l s h n).sounds
      = collect_gems p l s h n := by
  constructor
  · rw [collect_gems_gems]
    intro hmem
    have := filter_not_in_range _ _ _ hmem
    rw [hr] at this
    exact Bool.noConfusion this
  · have hall : ∀ g2 ∈ (collect_gems p l s h n).gems, in_range p g2.pos = false := by
      intro g2 hg2
      rw [collect_gems_gems] at hg2
      exact filter_not_in_range _ _ _ hg2
    rw [collect_gems_no_hit _ _ _ _ _ hall]

/-- Witness for C8 at a concrete input: `gem_near` is 10 units from the
origin, and after the collecting pass it is no longer live. -/
theorem c8_collection_idempotent_witness :
    gem_near ∉ (collect_gems ⟨0, 0, 0⟩ [gem_near] 0 ⟨3, 3⟩ 0).gems :=
  (c8_collection_idempotent ⟨0, 0, 0⟩ [gem_near] 0 ⟨3, 3⟩ 0 gem_near
    (by with_unfolding_all decide) (by with_unfolding_all decide)).1

/-- C9: the simulation core is deterministic: the run is a pure function of
the input trace, the tick durations and the 100 random draws the gem layout
consumed, so two runs whose random sources agree on those draws end in the
same world — seeding the generator reproduces the run exactly. -/
theorem c9_run_deterministic (o1 o2 : Nat → ℚ) (fs : List Ticks)
    (hagree : ∀ i, i < 100 → o1 i = o2 i) :
    run fs (setup o1) = run fs (setup o2) := by
  have hg : setup_gems o1 = setup_gems o2 := by
    unfold setup_gems
    apply List.map_congr_left
    intro i hi
    rw [hagree i (List.mem_range.mp hi)]
  have hsetup : setup o1 = setup o2 := by
    unfold setup
    rw [hg]
  rw [hsetup]

/-- Random source that always draws 0. -/
def draws_zero : Nat → ℚ := fun _ => 0

/-- Random source drawing 0 for the first hundred draws and 1 afterwards:
it agrees with `draws_zero` on every draw `setup` consumes. -/
def draws_zero_then_one : Nat → ℚ := fun i => if i < 100 then 0 else 1

/-- Witness for C9 at a concrete input: two random sources that agree on the
first 100 draws give identical runs. -/
theorem c9_run_deterministic_witness :
    run [] (setup draws_zero) = run [] (setup draws_zero_then_one) :=
  c9_run_deterministic draws_zero draws_zero_then_one []
    (by intro i hi; simp [draws_zero, draws_zero_then_one, hi])

/-- C10: health is monotonically non-increasing along any run from setup and
health.max stays 3 forever; the only systems that touch the Health component
are in the pickup pass — the death check and the state transition leave
health exactly as it was. -/
theorem c10_health_only_decreases (offsets : Nat → ℚ) (fs more : List Ticks) (w : World) :
    (run (fs ++ more) (setup offsets)).health.current
      ≤ (run fs (setup offsets)).health.current
    ∧ (run fs (setup offsets)).health.max = 3
    ∧ (check_player_death w).health = w.health
    ∧ (apply_transition w).health = w.health := by
  refine ⟨?_, ?_, (check_player_death_fields w).1, (apply_transition_fields w).1⟩
  · rw [run_append]
    have hInv := run_Inv fs (setup offsets) (setup_Inv offsets)
    exact (run_health_mono more _ hInv.1).1
  · rw [run_health_max]
    rfl
